import Mathlib

/-!
Verification model of `manage_product_tags.py`: automated tagging of
e-commerce products from a stored mapping `product_type → tags`.

The Python string primitives used by the source (`str.split(sep)`,
`sep.join(...)`, `str.strip()`, `sorted(...)` on strings) are modelled
explicitly over `List Char`, with Python's exact semantics (splitting keeps
empty pieces; string order is lexicographic by code point).
-/

namespace TagManager

/-! ### Python string primitives -/

/-- Prepend a character to the first piece of a split result
(helper for the split functions below). -/
def consHead (c : Char) : List (List Char) → List (List Char)
  | [] => [[c]]
  | p :: ps => (c :: p) :: ps

/-- Python's `s.split(", ")` (the Shopify tag separator
`SHOPIFY_TAG_SEPARATOR = ", "`, line 29 of the source): scan left to right,
cut at each non-overlapping occurrence of the two-character separator,
keeping empty pieces.  `"".split(", ") = [""]`. -/
def split2 : List Char → List (List Char)
  | [] => [[]]
  | [c] => [[c]]
  | c :: d :: rest =>
    if c = ',' ∧ d = ' ' then [] :: split2 rest
    else consHead c (split2 (d :: rest))

/-- Python's `", ".join(pieces)` (line 296 / 396 of the source). -/
def joinSep : List (List Char) → List Char
  | [] => []
  | [p] => p
  | p :: q :: rest => p ++ ',' :: ' ' :: joinSep (q :: rest)

/-- Python's `s.split(";")` (the internal separator `TAG_SEPARATOR = ";"`,
line 28 of the source), used when parsing the stored tag column. -/
def splitSemi : List Char → List (List Char)
  | [] => [[]]
  | c :: rest => if c = ';' then [] :: splitSemi rest else consHead c (splitSemi rest)

/-- Python's `s.strip()` (whitespace trim at both ends), as used on each
stored tag piece at line 109 of the source. -/
def pyStrip (l : List Char) : List Char :=
  ((l.dropWhile Char.isWhitespace).reverse.dropWhile Char.isWhitespace).reverse

/-- Python's string `<=`: lexicographic comparison by code point, the order
used by `sorted(...)` at lines 296/396 of the source. -/
def lexLe : List Char → List Char → Bool
  | [], _ => true
  | _ :: _, [] => false
  | a :: as, b :: bs => if a < b then true else if b < a then false else lexLe as bs

/-- The order `sorted` uses on tags, lifted to `String`. -/
def tagLe (a b : String) : Prop := lexLe a.data b.data = true

instance : DecidableRel tagLe := fun a b => by
  unfold tagLe; infer_instance

/-! ### The Tag Reconciler (source lines 246–255, 292–296) -/

/-- Line 252 / 293: `set(product.tags.split(SHOPIFY_TAG_SEPARATOR) if
product.tags else [])` — parse the product's current tag string; an empty
(falsy) string yields no tags. -/
def parseCurrentTags (tags : String) : List String :=
  if tags = "" then [] else (split2 tags.data).map String.mk

/-- Line 253: `tags_to_add = [tag for tag in type_tags if tag not in
current_tags]`. -/
def tags_to_add (type_tags : List String) (current : String) : List String :=
  type_tags.filter (fun tag => decide (tag ∉ parseCurrentTags current))

/-- Lines 293–295: the union set `current_tags ∪ tags_to_add`, sorted — the
list that line 296 joins.  Python's `set` is modelled by `dedup` (the sort
makes the choice of representative order irrelevant) and `sorted` by
insertion sort under the code-point order `tagLe`. -/
def mergedTagList (current : String) (toAdd : List String) : List String :=
  List.insertionSort tagLe ((parseCurrentTags current ++ toAdd).dedup)

/-- Line 296 / 396: `SHOPIFY_TAG_SEPARATOR.join(sorted(current_tags))`. -/
def merge_tags (current : String) (toAdd : List String) : String :=
  String.mk (joinSep ((mergedTagList current toAdd).map String.data))

/-! ### Data model -/

/-- External catalog item (the fields of `shopify.Product` the program
reads and writes). -/
structure Product where
  title : String
  product_type : String
  tags : String
deriving DecidableEq

/-! ### Mapping store (source lines 99–116, 147–175, 324–329) -/

/-- Line 109: `[tag.strip() for tag in tags_str.split(TAG_SEPARATOR)]` —
parse one stored tag column into the per-type desired tag list. -/
def parseStoredTags (s : String) : List String :=
  (splitSemi s.data).map (fun piece => String.mk (pyStrip piece))

/-- Lines 99–116: `load_product_type_mappings`.  The SQL read is modelled
by its result (`rowsRes`); the `except` branch prints and returns `{}`,
modelled by the empty mapping. -/
def load_product_type_mappings (rowsRes : Except String (List (String × String))) :
    List (String × List String) :=
  match rowsRes with
  | .ok rows => rows.map (fun row => (row.1, parseStoredTags row.2))
  | .error _ => []

/-- The mapping-store upsert error taxonomy relevant here. -/
inductive MappingError where
  | validationError
deriving DecidableEq

/-- Lines 147–175: `add_mapping` — update the existing row (behind an
interactive confirmation, `confirmUpdate`) or insert a new one. -/
def add_mapping (confirmUpdate : Bool) (store : List (String × String))
    (product_type tags : String) : List (String × String) :=
  match store.lookup product_type with
  | some _ =>
    if confirmUpdate then
      store.map (fun e => if e.1 = product_type then (e.1, tags) else e)
    else store
  | none => store ++ [(product_type, tags)]

/-- Lines 324–329: the menu wraps `add_mapping` in the emptiness check
`if product_type and tags`; on an empty field it reports the validation
error and leaves the store untouched. -/
def admin_add_mapping (confirmUpdate : Bool) (store : List (String × String))
    (product_type tags : String) : Option MappingError × List (String × String) :=
  if product_type ≠ "" ∧ tags ≠ "" then
    (none, add_mapping confirmUpdate store product_type tags)
  else (some MappingError.validationError, store)

/-! ### Catalog Scanner (source lines 233–265) -/

/-- Lines 246–255: per-product body of the scan loop.  Dict membership and
indexing (`product_type in mapping`, `mapping[product_type]`) are modelled
by association-list lookup. -/
def scanProduct (mappings : List (String × List String)) (p : Product) :
    List (Product × List String) :=
  match mappings.lookup p.product_type with
  | none => []
  | some type_tags =>
    let toAdd := tags_to_add type_tags p.tags
    if toAdd = [] then [] else [(p, toAdd)]

/-- Inner loop over one fetched page. -/
def scanPage (mappings : List (String × List String)) :
    List Product → List (Product × List String)
  | [] => []
  | p :: ps => scanProduct mappings p ++ scanPage mappings ps

/-- Outer loop over the fetched pages. -/
def scanPages (mappings : List (String × List String)) :
    List (List Product) → List (Product × List String)
  | [] => []
  | page :: rest => scanPage mappings page ++ scanPages mappings rest

/-- Lines 233–265: `get_products_for_type_tagging`.  The paginated remote
catalog is modelled by the pages it returns; the guard at line 235–236
returns `[]` before any fetch when the mapping is empty. -/
def get_products_for_type_tagging (mappings : List (String × List String))
    (pages : List (List Product)) : List (Product × List String) :=
  if mappings = [] then [] else scanPages mappings pages

/-! ### Update Executor (source lines 289–303 and 389–402) -/

/-- The per-item update loop: compute the merged tag string, attempt the
write (`product.save()`, whose success at position `i` is `saveOk i`; the
`except` branch records the failure and continues), and count successes.
Returns `(update_count, one record per attempted item)`. -/
def applyWorklist (saveOk : Nat → Bool) :
    Nat → List (Product × List String) → Nat × List (Product × String × Bool)
  | _, [] => (0, [])
  | i, item :: rest =>
    let newTags := merge_tags item.1.tags item.2
    let ok := saveOk i
    let r := applyWorklist saveOk (i + 1) rest
    ((if ok then 1 else 0) + r.1, (item.1, newTags, ok) :: r.2)

/-! ### Orchestration (source lines 267–307 and 372–406) -/

/-- Observable outcome of one workflow run. `sessionClosed` records that
the `finally: shopify.ShopifyResource.clear_session()` block ran before
the workflow returned. -/
structure RunResult where
  scanned : Bool
  worklist : List (Product × List String)
  results : List (Product × String × Bool)
  updateCount : Nat
  totalCount : Nat
  sessionClosed : Bool

/-- Lines 267–307: the interactive workflow.  `rowsRes` is the backing
store read, `pagesRes` the catalog fetch (an `error` value models the
exception caught by the outer `except`, after which `finally` still runs),
`confirm` the operator's answer at line 285. -/
def manage_product_type_tags (rowsRes : Except String (List (String × String)))
    (pagesRes : Except String (List (List Product))) (confirm : Bool)
    (saveOk : Nat → Bool) : RunResult :=
  let mappings := load_product_type_mappings rowsRes
  if mappings = [] then
    { scanned := false, worklist := [], results := [], updateCount := 0,
      totalCount := 0, sessionClosed := true }
  else
    match pagesRes with
    | .error _ =>
      { scanned := false, worklist := [], results := [], updateCount := 0,
        totalCount := 0, sessionClosed := true }
    | .ok pages =>
      let wl := get_products_for_type_tagging mappings pages
      if wl = [] then
        { scanned := true, worklist := wl, results := [], updateCount := 0,
          totalCount := 0, sessionClosed := true }
      else if confirm then
        let r := applyWorklist saveOk 0 wl
        { scanned := true, worklist := wl, results := r.2, updateCount := r.1,
          totalCount := wl.length, sessionClosed := true }
      else
        { scanned := true, worklist := wl, results := [], updateCount := 0,
          totalCount := 0, sessionClosed := true }

/-- Lines 372–406: the scheduled workflow — identical, minus the display
and confirmation gate. -/
def auto_manage_tags_without_confirmation
    (rowsRes : Except String (List (String × String)))
    (pagesRes : Except String (List (List Product)))
    (saveOk : Nat → Bool) : RunResult :=
  let mappings := load_product_type_mappings rowsRes
  if mappings = [] then
    { scanned := false, worklist := [], results := [], updateCount := 0,
      totalCount := 0, sessionClosed := true }
  else
    match pagesRes with
    | .error _ =>
      { scanned := false, worklist := [], results := [], updateCount := 0,
        totalCount := 0, sessionClosed := true }
    | .ok pages =>
      let wl := get_products_for_type_tagging mappings pages
      if wl = [] then
        { scanned := true, worklist := wl, results := [], updateCount := 0,
          totalCount := 0, sessionClosed := true }
      else
        let r := applyWorklist saveOk 0 wl
        { scanned := true, worklist := wl, results := r.2, updateCount := r.1,
          totalCount := wl.length, sessionClosed := true }

/-! ### Order properties of the code-point comparison -/

lemma lexLe_total (a b : List Char) : lexLe a b = true ∨ lexLe b a = true := by
  induction a generalizing b with
  | nil => left; rfl
  | cons x as ih =>
    cases b with
    | nil => right; rfl
    | cons y bs =>
      rcases lt_trichotomy x y with h | h | h
      · left; simp [lexLe, h]
      · subst h
        simpa [lexLe] using ih bs
      · right; simp [lexLe, h]

lemma lexLe_trans {a b c : List Char} (hab : lexLe a b = true)
    (hbc : lexLe b c = true) : lexLe a c = true := by
  induction a generalizing b c with
  | nil => rfl
  | cons x as ih =>
    cases b with
    | nil => simp [lexLe] at hab
    | cons y bs =>
      cases c with
      | nil => simp [lexLe] at hbc
      | cons z cs =>
        rcases lt_trichotomy x y with h1 | h1 | h1
        · rcases lt_trichotomy y z with h2 | h2 | h2
          · simp [lexLe, lt_trans h1 h2]
          · subst h2; simp [lexLe, h1]
          · simp [lexLe, asymm h2, h2] at hbc
        · subst h1
          simp only [lexLe, lt_self_iff_false, if_false] at hab
          rcases lt_trichotomy x z with h2 | h2 | h2
          · simp [lexLe, h2]
          · subst h2
            simp only [lexLe, lt_self_iff_false, if_false] at hbc ⊢
            exact ih hab hbc
          · simp [lexLe, asymm h2, h2] at hbc
        · simp [lexLe, asymm h1, h1] at hab

lemma lexLe_antisymm {a b : List Char} (hab : lexLe a b = true)
    (hba : lexLe b a = true) : a = b := by
  induction a generalizing b with
  | nil =>
    cases b with
    | nil => rfl
    | cons y bs => simp [lexLe] at hba
  | cons x as ih =>
    cases b with
    | nil => simp [lexLe] at hab
    | cons y bs =>
      rcases lt_trichotomy x y with h | h | h
      · simp [lexLe, asymm h, h] at hba
      · subst h
        simp only [lexLe, lt_self_iff_false, if_false] at hab hba
        rw [ih hab hba]
      · simp [lexLe, asymm h, h] at hab

instance : IsTotal String tagLe := ⟨fun a b => lexLe_total a.data b.data⟩

instance : IsTrans String tagLe := ⟨fun _ _ _ hab hbc => lexLe_trans hab hbc⟩

instance : IsAntisymm String tagLe :=
  ⟨fun a b hab hba => by
    cases a with
    | mk la =>
      cases b with
      | mk lb => exact congrArg String.mk (lexLe_antisymm hab hba)⟩

/-! ### Structural facts about `split2` and `joinSep` -/

lemma split2_cons2 (c d : Char) (rest : List Char) :
    split2 (c :: d :: rest) =
      if c = ',' ∧ d = ' ' then [] :: split2 rest
      else consHead c (split2 (d :: rest)) := rfl

lemma split2_ne_nil : ∀ s : List Char, split2 s ≠ []
  | [] => by simp [split2]
  | [c] => by simp [split2]
  | c :: d :: rest => by
    rw [split2_cons2]
    split
    · simp
    · cases h : split2 (d :: rest) with
      | nil => simp [consHead]
      | cons p ps => simp [consHead]

/-- The first piece of splitting `d :: rest` is either empty or starts
with `d`. -/
lemma split2_cons_head (d : Char) (rest p₀ : List Char) (ps : List (List Char))
    (h : split2 (d :: rest) = p₀ :: ps) : p₀ = [] ∨ ∃ p₁, p₀ = d :: p₁ := by
  cases rest with
  | nil =>
    simp only [split2, List.cons.injEq] at h
    exact Or.inr ⟨[], h.1.symm⟩
  | cons e rest =>
    rw [split2_cons2] at h
    split at h
    · exact Or.inl (List.cons.injEq .. ▸ h).1.symm
    · cases h2 : split2 (e :: rest) with
      | nil => exact absurd h2 (split2_ne_nil _)
      | cons q qs =>
        rw [h2] at h
        simp only [consHead, List.cons.injEq] at h
        exact Or.inr ⟨q, h.1.symm⟩

/-- Every piece produced by `split2` contains no occurrence of the
separator: re-splitting a piece returns the piece whole. -/
lemma split2_piece_eq {s : List Char} {p : List Char} (hp : p ∈ split2 s) :
    split2 p = [p] := by
  suffices h : ∀ n (s : List Char), s.length ≤ n → ∀ p ∈ split2 s, split2 p = [p] from
    h s.length s le_rfl p hp
  intro n
  induction n with
  | zero =>
    intro s hs p hp
    rw [List.length_eq_zero.mp (Nat.le_zero.mp hs)] at hp
    simp only [split2, List.mem_singleton] at hp
    simp [hp, split2]
  | succ n ih =>
    intro s hs p hp
    match s with
    | [] =>
      simp only [split2, List.mem_singleton] at hp
      simp [hp, split2]
    | [c] =>
      simp only [split2, List.mem_singleton] at hp
      simp [hp, split2]
    | c :: d :: rest =>
      simp only [List.length_cons] at hs
      rw [split2_cons2] at hp
      split at hp
      · rcases List.mem_cons.mp hp with h1 | h1
        · simp [h1, split2]
        · exact ih rest (by omega) p h1
      · rename_i hsep
        cases h2 : split2 (d :: rest) with
        | nil => exact absurd h2 (split2_ne_nil _)
        | cons p₀ ps =>
          rw [h2, consHead] at hp
          rcases List.mem_cons.mp hp with h1 | h1
          · subst h1
            rcases split2_cons_head d rest p₀ ps h2 with h3 | ⟨p₁, h3⟩
            · simp [h3, split2]
            · have hp₀ : split2 p₀ = [p₀] :=
                ih (d :: rest) (by simp only [List.length_cons]; omega) p₀
                  (h2 ▸ List.mem_cons_self _ _)
              rw [h3] at hp₀ ⊢
              rw [split2_cons2, if_neg hsep, hp₀, consHead]
          · exact ih (d :: rest) (by simp only [List.length_cons]; omega) p
              (h2 ▸ List.mem_cons_of_mem _ h1)

/-- Splitting `p ++ ", " ++ t` when `p` is separator-free: the separator
occurrence cuts exactly there. -/
lemma split2_append_sep {p : List Char} (t : List Char) (hp : split2 p = [p]) :
    split2 (p ++ ',' :: ' ' :: t) = p :: split2 t := by
  induction p generalizing t with
  | nil => simp [split2_cons2]
  | cons c p' ih =>
    cases p' with
    | nil =>
      rw [List.cons_append, List.nil_append, split2_cons2]
      have hc : ¬(c = ',' ∧ ',' = ' ') := by simp
      rw [if_neg hc, split2_cons2, if_pos ⟨rfl, rfl⟩, consHead]
    | cons d p'' =>
      rw [split2_cons2] at hp
      split at hp
      · simp at hp
      · rename_i hsep
        cases h2 : split2 (d :: p'') with
        | nil => exact absurd h2 (split2_ne_nil _)
        | cons q₀ qs =>
          rw [h2, consHead] at hp
          simp only [List.cons.injEq, true_and] at hp
          obtain ⟨hq₀, hqs⟩ := hp
          have hdp : split2 (d :: p'') = [d :: p''] := by rw [h2, hq₀, hqs]
          have hstep := ih (t := t) hdp
          have h4 : (c :: d :: p'') ++ ',' :: ' ' :: t =
              c :: d :: (p'' ++ ',' :: ' ' :: t) := rfl
          rw [h4, split2_cons2, if_neg hsep]
          have h5 : d :: (p'' ++ ',' :: ' ' :: t) = (d :: p'') ++ ',' :: ' ' :: t := rfl
          rw [h5, hstep, consHead]

/-- Joining separator-free pieces and re-splitting recovers the pieces. -/
lemma split2_joinSep : ∀ L : List (List Char), L ≠ [] →
    (∀ p ∈ L, split2 p = [p]) → split2 (joinSep L) = L
  | [], h, _ => absurd rfl h
  | [p], _, hps => hps p (List.mem_singleton_self p)
  | p :: q :: rest, _, hps => by
    have h1 : joinSep (p :: q :: rest) = p ++ ',' :: ' ' :: joinSep (q :: rest) := rfl
    rw [h1, split2_append_sep _ (hps p (List.mem_cons_self _ _)),
      split2_joinSep (q :: rest) (by simp)
        (fun x hx => hps x (List.mem_cons_of_mem _ hx))]

lemma joinSep_cons_cons_ne_nil (p q : List Char) (rest : List (List Char)) :
    joinSep (p :: q :: rest) ≠ [] := by
  rw [joinSep]
  intro h
  rcases List.append_eq_nil.mp h with ⟨_, h2⟩
  exact List.cons_ne_nil _ _ h2

/-! ### Small `String` helpers -/

lemma string_mk_data (s : String) : String.mk s.data = s := rfl

lemma string_mk_eq_empty_iff (l : List Char) : String.mk l = "" ↔ l = [] := by
  constructor
  · intro h
    exact congrArg String.data h
  · intro h
    rw [h]

lemma string_data_eq_nil_iff (s : String) : s.data = [] ↔ s = "" := by
  constructor
  · intro h
    cases s with
    | mk l => exact congrArg String.mk h
  · intro h; rw [h]

/-! ### Facts about the reconciler and the merge -/

lemma mem_mergedTagList {x current : String} {toAdd : List String} :
    x ∈ mergedTagList current toAdd ↔ x ∈ parseCurrentTags current ∨ x ∈ toAdd := by
  unfold mergedTagList
  rw [List.mem_insertionSort, List.mem_dedup, List.mem_append]

lemma sorted_mergedTagList (current : String) (toAdd : List String) :
    List.Sorted tagLe (mergedTagList current toAdd) :=
  List.sorted_insertionSort tagLe _

lemma nodup_mergedTagList (current : String) (toAdd : List String) :
    (mergedTagList current toAdd).Nodup :=
  ((List.perm_insertionSort tagLe _).nodup_iff).mpr (List.nodup_dedup _)

/-- Any tag parsed out of a wire string is separator-free. -/
lemma parse_piece_sepfree {s u : String} (hu : u ∈ parseCurrentTags s) :
    split2 u.data = [u.data] := by
  unfold parseCurrentTags at hu
  split at hu
  · simp at hu
  · obtain ⟨p, hp, rfl⟩ := List.mem_map.mp hu
    exact split2_piece_eq hp

lemma joinSep_map_ne_nil : ∀ {U : List String}, U ≠ [] → U ≠ [""] →
    joinSep (U.map String.data) ≠ []
  | [], h0, _ => absurd rfl h0
  | [u], _, h1 => by
    have hu : u.data ≠ [] := fun h => h1 (by rw [(string_data_eq_nil_iff u).mp h])
    simp only [List.map_cons, List.map_nil, joinSep]
    exact hu
  | u :: v :: rest, _, _ => by
    have h := joinSep_cons_cons_ne_nil u.data v.data (rest.map String.data)
    simp only [List.map_cons]
    exact h

/-- The central round trip: as long as the merged tag list is not empty
and not the single empty tag, and all its tags are separator-free,
re-parsing the merged wire string recovers exactly the merged list. -/
lemma parseCurrentTags_merge {tags : String} {toAdd : List String}
    (h0 : mergedTagList tags toAdd ≠ [])
    (h1 : mergedTagList tags toAdd ≠ [""])
    (hsep : ∀ u ∈ mergedTagList tags toAdd, split2 u.data = [u.data]) :
    parseCurrentTags (merge_tags tags toAdd) = mergedTagList tags toAdd := by
  have hjoin := joinSep_map_ne_nil h0 h1
  have hmne : merge_tags tags toAdd ≠ "" := by
    unfold merge_tags
    rw [Ne, string_mk_eq_empty_iff]
    exact hjoin
  have hpieces : ∀ p ∈ (mergedTagList tags toAdd).map String.data, split2 p = [p] := by
    intro p hp
    obtain ⟨u, hu, rfl⟩ := List.mem_map.mp hp
    exact hsep u hu
  have hmapne : (mergedTagList tags toAdd).map String.data ≠ [] := by
    simpa using h0
  unfold parseCurrentTags
  rw [if_neg hmne]
  have hdata : (merge_tags tags toAdd).data =
      joinSep ((mergedTagList tags toAdd).map String.data) := rfl
  rw [hdata, split2_joinSep _ hmapne hpieces, List.map_map]
  have hid : (String.mk ∘ String.data) = id := funext fun u => rfl
  rw [hid, List.map_id]

/-! ### Facts about the executor and the scanner -/

lemma applyWorklist_spec (saveOk : Nat → Bool) :
    ∀ (items : List (Product × List String)) (i : Nat),
      (applyWorklist saveOk i items).2.map (fun r => r.1) =
        items.map (fun it => it.1) ∧
      (applyWorklist saveOk i items).2.map (fun r => r.2.1) =
        items.map (fun it => merge_tags it.1.tags it.2) ∧
      (applyWorklist saveOk i items).2.map (fun r => r.2.2) =
        (List.range items.length).map (fun k => saveOk (i + k)) ∧
      (applyWorklist saveOk i items).1 =
        ((applyWorklist saveOk i items).2.filter (fun r => r.2.2)).length
  | [], i => by simp [applyWorklist]
  | item :: rest, i => by
    obtain ⟨ih1, ih2, ih3, ih4⟩ := applyWorklist_spec saveOk rest (i + 1)
    refine ⟨?_, ?_, ?_, ?_⟩
    · simpa [applyWorklist] using ih1
    · simpa [applyWorklist] using ih2
    · simp only [applyWorklist, List.map_cons, List.length_cons,
        List.range_succ_eq_map, List.map_map]
      refine congrArg₂ List.cons (by rw [Nat.add_zero]) ?_
      rw [ih3]
      refine List.map_congr_left fun k _ => ?_
      simp only [Function.comp_apply]
      exact congrArg saveOk (by omega)
    · simp only [applyWorklist, List.filter_cons]
      cases hsi : saveOk i
      · simpa using ih4
      · simp
        omega
  termination_by items _ => items.length

/-- With `lookup = none`, the per-product scan body contributes nothing. -/
lemma scanProduct_unmapped {mappings : List (String × List String)} {p : Product}
    (h : mappings.lookup p.product_type = none) : scanProduct mappings p = [] := by
  unfold scanProduct
  rw [h]

lemma scanPage_append (mappings : List (String × List String)) :
    ∀ l₁ l₂ : List Product,
      scanPage mappings (l₁ ++ l₂) = scanPage mappings l₁ ++ scanPage mappings l₂
  | [], l₂ => by simp [scanPage]
  | p :: ps, l₂ => by
    simp [scanPage, scanPage_append mappings ps l₂, List.append_assoc]

lemma scanPages_append (mappings : List (String × List String)) :
    ∀ ps₁ ps₂ : List (List Product),
      scanPages mappings (ps₁ ++ ps₂) =
        scanPages mappings ps₁ ++ scanPages mappings ps₂
  | [], ps₂ => by simp [scanPages]
  | page :: rest, ps₂ => by
    simp [scanPages, scanPages_append mappings rest ps₂, List.append_assoc]

/-! ### Facts about the stored-tag parser -/

lemma splitSemi_cons (c : Char) (t : List Char) :
    splitSemi (c :: t) =
      if c = ';' then [] :: splitSemi t else consHead c (splitSemi t) := rfl

lemma splitSemi_double : ∀ l₁ l₂ : List Char,
    ∃ p ps, splitSemi (l₁ ++ ';' :: ';' :: l₂) = p :: ps ∧ [] ∈ ps
  | [], l₂ =>
    ⟨[], splitSemi (';' :: l₂),
      by rw [List.nil_append, splitSemi_cons, if_pos rfl],
      by rw [splitSemi_cons, if_pos rfl]; exact List.mem_cons_self _ _⟩
  | c :: l₁, l₂ => by
    obtain ⟨p, ps, hps, hmem⟩ := splitSemi_double l₁ l₂
    by_cases hc : c = ';'
    · refine ⟨[], splitSemi (l₁ ++ ';' :: ';' :: l₂), ?_, ?_⟩
      · rw [List.cons_append, splitSemi_cons, if_pos hc]
      · rw [hps]
        exact List.mem_cons_of_mem _ hmem
    · refine ⟨c :: p, ps, ?_, hmem⟩
      rw [List.cons_append, splitSemi_cons, if_neg hc, hps, consHead]

lemma splitSemi_trailing : ∀ l : List Char,
    ∃ p ps, splitSemi (l ++ [';']) = p :: ps ∧ [] ∈ ps
  | [] =>
    ⟨[], [[]], by rw [List.nil_append, splitSemi_cons, if_pos rfl]; rfl,
      List.mem_singleton_self _⟩
  | c :: l => by
    obtain ⟨p, ps, hps, hmem⟩ := splitSemi_trailing l
    by_cases hc : c = ';'
    · refine ⟨[], splitSemi (l ++ [';']), ?_, ?_⟩
      · rw [List.cons_append, splitSemi_cons, if_pos hc]
      · rw [hps]
        exact List.mem_cons_of_mem _ hmem
    · refine ⟨c :: p, ps, ?_, hmem⟩
      rw [List.cons_append, splitSemi_cons, if_neg hc, hps, consHead]

/-! ## The claims -/

/-- Claim C1: for every desired-tags list and every current-tags string,
the reconciler parses the current string by splitting on `", "` (an empty
string yielding no tags), and returns, in the original order of the
desired list, exactly those desired tags not present (exact, case-sensitive
match) in the current set; for mapping tags `["sale", "new"]` and current
tags `"old, sale"` it returns `["new"]`. -/
theorem tags_to_add_spec :
    (∀ (desired : List String) (current : String),
      List.Sublist (tags_to_add desired current) desired) ∧
    (∀ (desired : List String) (current t : String),
      t ∈ tags_to_add desired current ↔
        t ∈ desired ∧ t ∉ parseCurrentTags current) ∧
    parseCurrentTags "" = [] ∧
    parseCurrentTags "old, sale" = ["old", "sale"] ∧
    tags_to_add ["sale", "new"] "old, sale" = ["new"] := by
  refine ⟨fun desired current => List.filter_sublist desired,
    fun desired current t => ?_, by decide, by decide, by decide⟩
  unfold tags_to_add
  rw [List.mem_filter, decide_eq_true_eq]

/-- Claim C2: for every current-tags string and every tags-to-add list,
the merge step produces the lexicographically sorted union of the current
tags and the added tags, rejoined with `", "`; every current tag and every
added tag is in the union, and the union has no duplicates. -/
theorem merge_tags_subset_invariant :
    ∀ (current : String) (toAdd : List String),
      merge_tags current toAdd =
        String.mk (joinSep ((mergedTagList current toAdd).map String.data)) ∧
      List.Sorted tagLe (mergedTagList current toAdd) ∧
      (mergedTagList current toAdd).Nodup ∧
      (∀ t, t ∈ mergedTagList current toAdd ↔
        t ∈ parseCurrentTags current ∨ t ∈ toAdd) :=
  fun current toAdd =>
    ⟨rfl, sorted_mergedTagList current toAdd, nodup_mergedTagList current toAdd,
      fun _ => mem_mergedTagList⟩

/-- Claim C3, counterexample: reconciliation is not idempotent for every
desired-tags list.  A desired empty-string tag is lost by the join, so the
second run schedules it again; a desired tag containing `", "` is split
apart by the re-parse, so the tag string keeps growing. -/
theorem reconcile_twice_counterexample :
    tags_to_add [""] (merge_tags "" (tags_to_add [""] "")) ≠ [] ∧
    merge_tags (merge_tags "" (tags_to_add ["a, b"] ""))
        (tags_to_add ["a, b"] (merge_tags "" (tags_to_add ["a, b"] ""))) ≠
      merge_tags "" (tags_to_add ["a, b"] "") := by
  constructor
  · decide
  · decide

/-- Claim C3 (amended): reconciliation is idempotent for every product tag
string and every desired-tags list whose tags are non-empty and contain no
occurrence of the wire separator `", "`: the second run's tags-to-add list
is empty and the tag string after two applications equals the tag string
after one. -/
theorem reconcile_idempotent (desired : List String) (tags : String)
    (hne : ∀ t ∈ desired, t ≠ "")
    (hsep : ∀ t ∈ desired, split2 t.data = [t.data]) :
    tags_to_add desired (merge_tags tags (tags_to_add desired tags)) = [] ∧
    merge_tags (merge_tags tags (tags_to_add desired tags))
        (tags_to_add desired (merge_tags tags (tags_to_add desired tags))) =
      merge_tags tags (tags_to_add desired tags) := by
  by_cases hdeg : mergedTagList tags (tags_to_add desired tags) = [] ∨
      mergedTagList tags (tags_to_add desired tags) = [""]
  · -- Degenerate outputs: the merged list joins to the empty wire string.
    -- In both cases every desired tag would have to be the empty string,
    -- so `desired` is empty and both statements collapse.
    have hdes : desired = [] := by
      rcases hdeg with hU | hU
      · have hperm := List.perm_insertionSort tagLe
          ((parseCurrentTags tags ++ tags_to_add desired tags).dedup)
        rw [show List.insertionSort tagLe
            ((parseCurrentTags tags ++ tags_to_add desired tags).dedup) =
            mergedTagList tags (tags_to_add desired tags) from rfl, hU] at hperm
        have happ := (List.dedup_eq_nil _).mp hperm.symm.eq_nil
        obtain ⟨hC, hA⟩ := List.append_eq_nil.mp happ
        rw [List.eq_nil_iff_forall_not_mem]
        intro t ht
        by_cases htC : t ∈ parseCurrentTags tags
        · rw [hC] at htC
          exact List.not_mem_nil t htC
        · have hmem : t ∈ tags_to_add desired tags :=
            List.mem_filter.mpr ⟨ht, by simpa using htC⟩
          rw [hA] at hmem
          exact List.not_mem_nil t hmem
      · have hA : tags_to_add desired tags = [] := by
          rw [List.eq_nil_iff_forall_not_mem]
          intro a ha
          have haU := (@mem_mergedTagList a tags (tags_to_add desired tags)).mpr
            (Or.inr ha)
          rw [hU] at haU
          exact hne a (List.mem_filter.mp ha).1 (by simpa using haU)
        rw [List.eq_nil_iff_forall_not_mem]
        intro t ht
        by_cases htC : t ∈ parseCurrentTags tags
        · have htU := (@mem_mergedTagList t tags (tags_to_add desired tags)).mpr
            (Or.inl htC)
          rw [hU] at htU
          exact hne t ht (by simpa using htU)
        · have hmem : t ∈ tags_to_add desired tags :=
            List.mem_filter.mpr ⟨ht, by simpa using htC⟩
          rw [hA] at hmem
          exact List.not_mem_nil t hmem
    subst hdes
    have hA : tags_to_add ([] : List String) tags = [] := rfl
    rw [hA] at hdeg ⊢
    refine ⟨rfl, ?_⟩
    have hm : merge_tags tags [] =
        String.mk (joinSep ((mergedTagList tags []).map String.data)) := rfl
    rcases hdeg with hU | hU
    · rw [show tags_to_add ([] : List String) (merge_tags tags []) = [] from rfl,
        hm, hU]
      decide
    · rw [show tags_to_add ([] : List String) (merge_tags tags []) = [] from rfl,
        hm, hU]
      decide
  · -- Main case: the merged wire string re-parses to the merged list.
    obtain ⟨h0, h1⟩ := not_or.mp hdeg
    have hsepU : ∀ u ∈ mergedTagList tags (tags_to_add desired tags),
        split2 u.data = [u.data] := by
      intro u hu
      rcases mem_mergedTagList.mp hu with h | h
      · exact parse_piece_sepfree h
      · exact hsep u (List.mem_filter.mp h).1
    have hparse := parseCurrentTags_merge h0 h1 hsepU
    have hc1 : tags_to_add desired (merge_tags tags (tags_to_add desired tags)) = [] := by
      apply List.filter_eq_nil_iff.mpr
      intro t ht
      simp only [hparse, decide_eq_true_eq, not_not]
      by_cases htC : t ∈ parseCurrentTags tags
      · exact mem_mergedTagList.mpr (Or.inl htC)
      · exact mem_mergedTagList.mpr
          (Or.inr (List.mem_filter.mpr ⟨ht, by simpa using htC⟩))
    refine ⟨hc1, ?_⟩
    rw [hc1]
    have key : List.insertionSort tagLe
        ((parseCurrentTags (merge_tags tags (tags_to_add desired tags)) ++
          ([] : List String)).dedup) =
        mergedTagList tags (tags_to_add desired tags) := by
      rw [hparse, List.append_nil, List.dedup_eq_self.mpr (nodup_mergedTagList _ _),
        (sorted_mergedTagList _ _).insertionSort_eq]
    show String.mk (joinSep ((List.insertionSort tagLe
        ((parseCurrentTags (merge_tags tags (tags_to_add desired tags)) ++
          ([] : List String)).dedup)).map String.data)) = _
    rw [key]
    rfl

/-- Witness for the amended Claim C3 at the spec's own scenario. -/
theorem reconcile_idempotent_witness :
    tags_to_add ["sale", "new"]
        (merge_tags "old, sale" (tags_to_add ["sale", "new"] "old, sale")) = [] ∧
    merge_tags (merge_tags "old, sale" (tags_to_add ["sale", "new"] "old, sale"))
        (tags_to_add ["sale", "new"]
          (merge_tags "old, sale" (tags_to_add ["sale", "new"] "old, sale"))) =
      merge_tags "old, sale" (tags_to_add ["sale", "new"] "old, sale") :=
  reconcile_idempotent ["sale", "new"] "old, sale" (by decide) (by decide)

/-- Claim C9, counterexample: `merge_tags` compares tags by exact string
equality, so whitespace-equivalent duplicates are NOT collapsed — the two
inputs denote the same tag set up to whitespace, yet the outputs differ. -/
theorem merge_tags_whitespace_counterexample :
    merge_tags "" ["sale", " sale"] ≠ merge_tags "" ["sale"] := by decide

/-- Claim C9 (amended): `merge_tags` is order-independent for inputs that
denote the same exact tag set — presented in any order, with any exact
duplicates — producing the identical sorted output string.  (Tags that
differ only in whitespace count as distinct tags.) -/
theorem merge_tags_set_deterministic (c₁ c₂ : String) (t₁ t₂ : List String)
    (h : ∀ x, x ∈ parseCurrentTags c₁ ∨ x ∈ t₁ ↔ x ∈ parseCurrentTags c₂ ∨ x ∈ t₂) :
    merge_tags c₁ t₁ = merge_tags c₂ t₂ := by
  have hlist : mergedTagList c₁ t₁ = mergedTagList c₂ t₂ :=
    List.eq_of_perm_of_sorted
      ((List.perm_ext_iff_of_nodup (nodup_mergedTagList _ _)
          (nodup_mergedTagList _ _)).mpr
        (fun x => by rw [mem_mergedTagList, mem_mergedTagList]; exact h x))
      (sorted_mergedTagList _ _) (sorted_mergedTagList _ _)
  unfold merge_tags
  rw [hlist]

/-- Witness for the amended Claim C9: same tag set, different presentation,
identical output. -/
theorem merge_tags_set_deterministic_witness :
    merge_tags "old, sale" ["new", "sale"] = merge_tags "new, old" ["sale"] :=
  merge_tags_set_deterministic "old, sale" "new, old" ["new", "sale"] ["sale"]
    (fun x => by
      have h1 : parseCurrentTags "old, sale" = ["old", "sale"] := by decide
      have h2 : parseCurrentTags "new, old" = ["new", "old"] := by decide
      rw [h1, h2]
      simp only [List.mem_cons, List.not_mem_nil, or_false]
      tauto)

/-- Claim C4: the update executor attempts every worklist item exactly
once — one result record per item, carrying the item's product and its
merged tag string; a write failure is recorded and never aborts the batch;
the reported counts are (number of successful writes, worklist length).
Scenario: a batch of 3 whose second write fails reports 2 of 3 with items
1 and 3 applied. -/
theorem executor_partial_failure :
    (∀ (saveOk : Nat → Bool) (items : List (Product × List String)),
      (applyWorklist saveOk 0 items).2.map (fun r => r.1) =
        items.map (fun it => it.1) ∧
      (applyWorklist saveOk 0 items).2.map (fun r => r.2.1) =
        items.map (fun it => merge_tags it.1.tags it.2) ∧
      (applyWorklist saveOk 0 items).2.map (fun r => r.2.2) =
        (List.range items.length).map saveOk ∧
      (applyWorklist saveOk 0 items).1 =
        ((applyWorklist saveOk 0 items).2.filter (fun r => r.2.2)).length) ∧
    applyWorklist (fun i => decide (i ≠ 1)) 0
        [(⟨"A", "Shoes", "old"⟩, ["new"]), (⟨"B", "Shoes", "old"⟩, ["new"]),
         (⟨"C", "Shoes", "old"⟩, ["new"])] =
      (2, [(⟨"A", "Shoes", "old"⟩, "new, old", true),
           (⟨"B", "Shoes", "old"⟩, "new, old", false),
           (⟨"C", "Shoes", "old"⟩, "new, old", true)]) := by
  constructor
  · intro saveOk items
    obtain ⟨h1, h2, h3, h4⟩ := applyWorklist_spec saveOk items 0
    refine ⟨h1, h2, ?_, h4⟩
    rw [h3]
    exact List.map_congr_left fun k _ => congrArg saveOk (Nat.zero_add k)
  · decide

/-- Claim C5: the scanner skips every product whose type is not a mapping
key (removing such a product from any page leaves the worklist unchanged),
and an empty mapping or an empty catalog yields an empty worklist. -/
theorem scanner_skips_unmapped :
    (∀ (mappings : List (String × List String)) (p : Product),
      mappings.lookup p.product_type = none →
      ∀ (pages₁ pages₂ : List (List Product)) (page₁ page₂ : List Product),
        get_products_for_type_tagging mappings
            (pages₁ ++ (page₁ ++ p :: page₂) :: pages₂) =
          get_products_for_type_tagging mappings
            (pages₁ ++ (page₁ ++ page₂) :: pages₂)) ∧
    (∀ pages, get_products_for_type_tagging [] pages = []) ∧
    (∀ mappings, get_products_for_type_tagging mappings [] = []) := by
  refine ⟨?_, fun pages => rfl, ?_⟩
  · intro mappings p hnone pages₁ pages₂ page₁ page₂
    unfold get_products_for_type_tagging
    split
    · rfl
    · rw [scanPages_append, scanPages_append]
      simp only [scanPages, scanPage_append, scanPage,
        scanProduct_unmapped hnone, List.nil_append]
  · intro mappings
    unfold get_products_for_type_tagging
    split
    · rfl
    · rfl

/-- Witness for Claim C5: an unmapped product (type `"Hat"`) can be dropped
from the page without changing the scan result. -/
theorem scanner_skips_unmapped_witness :
    get_products_for_type_tagging [("Shoes", ["sale"])]
        [[⟨"A", "Shoes", "old"⟩, ⟨"B", "Hat", "x"⟩]] =
      get_products_for_type_tagging [("Shoes", ["sale"])]
        [[⟨"A", "Shoes", "old"⟩]] :=
  scanner_skips_unmapped.1 [("Shoes", ["sale"])] ⟨"B", "Hat", "x"⟩ (by decide)
    [] [] [⟨"A", "Shoes", "old"⟩] []

/-- Claim C6: the guarded mapping-store upsert fails with the validation
error when the product type or the tag string is empty; the error is
reported and the store is left unchanged. -/
theorem upsert_validation (confirmUpdate : Bool) (store : List (String × String))
    (product_type tags : String) (h : product_type = "" ∨ tags = "") :
    admin_add_mapping confirmUpdate store product_type tags =
      (some MappingError.validationError, store) := by
  unfold admin_add_mapping
  rcases h with h | h <;> simp [h]

/-- Witness for Claim C6 at an empty product type. -/
theorem upsert_validation_witness :
    admin_add_mapping true [("Shoes", "sale")] "" "new" =
      (some MappingError.validationError, [("Shoes", "sale")]) :=
  upsert_validation true [("Shoes", "sale")] "" "new" (Or.inl rfl)

/-- Claim C7: when loading the mapping from the backing store fails, the
whole run is aborted — no catalog scan is performed and no product write
is attempted — in both the interactive and the unattended workflow. -/
theorem load_failure_aborts_run :
    ∀ (e : String) (pagesRes : Except String (List (List Product)))
      (confirm : Bool) (saveOk : Nat → Bool),
      (manage_product_type_tags (Except.error e) pagesRes confirm saveOk).scanned
          = false ∧
      (manage_product_type_tags (Except.error e) pagesRes confirm saveOk).results
          = [] ∧
      (auto_manage_tags_without_confirmation (Except.error e) pagesRes
          saveOk).scanned = false ∧
      (auto_manage_tags_without_confirmation (Except.error e) pagesRes
          saveOk).results = [] :=
  fun _ _ _ _ => ⟨rfl, rfl, rfl, rfl⟩

/-- Claim C8: in both workflows the catalog session opened at the start is
closed on every exit path — empty mapping, fetch failure, empty worklist,
declined confirmation, and the apply path — before the workflow returns. -/
theorem session_closed_on_every_path :
    ∀ (rowsRes : Except String (List (String × String)))
      (pagesRes : Except String (List (List Product)))
      (confirm : Bool) (saveOk : Nat → Bool),
      (manage_product_type_tags rowsRes pagesRes confirm saveOk).sessionClosed
          = true ∧
      (auto_manage_tags_without_confirmation rowsRes pagesRes
          saveOk).sessionClosed = true := by
  intro rowsRes pagesRes confirm saveOk
  constructor
  · simp only [manage_product_type_tags]
    repeat first | rfl | split
  · simp only [auto_manage_tags_without_confirmation]
    repeat first | rfl | split

/-- Claim C10, counterexample: the empty string CAN occur in a product's
current tag set parsed from a non-empty wire string — the parser keeps
empty pieces there too. -/
theorem empty_tag_current_set_counterexample :
    (", x" : String) ≠ "" ∧ "" ∈ parseCurrentTags ", x" := by decide

/-- Claim C10 (amended): the stored-tag parser does not filter empty
pieces — any stored tags string with a leading, trailing, or doubled `;`
yields an empty-string desired tag; whenever the empty string is not
already in a product's current tag set, the scanner schedules `""` as a
tag to add, and the merge writes it into the `", "`-joined tag string
(concretely: stored `"sale;;new"` against current `"old"` produces the
wire string `", new, old, sale"`). -/
theorem empty_tag_pipeline :
    (∀ l : List Char, "" ∈ parseStoredTags (String.mk (';' :: l))) ∧
    (∀ l : List Char, "" ∈ parseStoredTags (String.mk (l ++ [';']))) ∧
    (∀ l₁ l₂ : List Char,
      "" ∈ parseStoredTags (String.mk (l₁ ++ ';' :: ';' :: l₂))) ∧
    (∀ (desired : List String) (current : String),
      "" ∈ desired → "" ∉ parseCurrentTags current →
        "" ∈ tags_to_add desired current) ∧
    parseStoredTags "sale;;new" = ["sale", "", "new"] ∧
    tags_to_add (parseStoredTags "sale;;new") "old" = ["sale", "", "new"] ∧
    merge_tags "old" (tags_to_add (parseStoredTags "sale;;new") "old") =
      ", new, old, sale" := by
  refine ⟨?_, ?_, ?_, ?_, by decide, by decide, by decide⟩
  · intro l
    unfold parseStoredTags
    rw [show (String.mk (';' :: l)).data = ';' :: l from rfl, splitSemi_cons,
      if_pos rfl]
    exact List.mem_map.mpr ⟨[], List.mem_cons_self _ _, rfl⟩
  · intro l
    obtain ⟨p, ps, hps, hmem⟩ := splitSemi_trailing l
    unfold parseStoredTags
    rw [show (String.mk (l ++ [';'])).data = l ++ [';'] from rfl, hps]
    exact List.mem_map.mpr ⟨[], List.mem_cons_of_mem _ hmem, rfl⟩
  · intro l₁ l₂
    obtain ⟨p, ps, hps, hmem⟩ := splitSemi_double l₁ l₂
    unfold parseStoredTags
    rw [show (String.mk (l₁ ++ ';' :: ';' :: l₂)).data = l₁ ++ ';' :: ';' :: l₂
        from rfl, hps]
    exact List.mem_map.mpr ⟨[], List.mem_cons_of_mem _ hmem, rfl⟩
  · intro desired current h1 h2
    exact List.mem_filter.mpr ⟨h1, by simpa using h2⟩

/-- Witness for the amended Claim C10: the empty tag loaded from
`"sale;;new"` is scheduled for a product currently tagged `"old"`. -/
theorem empty_tag_pipeline_witness :
    "" ∈ tags_to_add ["sale", "", "new"] "old" :=
  empty_tag_pipeline.2.2.2.1 ["sale", "", "new"] "old" (by decide) (by decide)

end TagManager
